import Mathlib

/-!
Verification of the ack-api-extractor core pipeline.

Strings are embedded as lists of characters (`Str`).  File-system access,
JSON decoding and the remote Bedrock call are external collaborators of the
core: they enter the embedding as parameters (the list of operation target
references found in the model's service shape, the list of shape names whose
type is "operation", the controller source scanner `findOp`, the
classification oracle, and the resolved `generator.yaml` model name).
All pure logic (name extraction from `namespace#Name` targets, de-duplication,
partition into supported/unsupported, classification application, count
derivation, policy construction, and the structural line patterns used by the
source scanner) is translated directly from the Go source.
-/

namespace AckApiExtractor

/-- Strings of the Go program, embedded as lists of characters. -/
abbrev Str := List Char

deriving instance DecidableEq for Except

/-- ASCII letters and digits: the character class of the spec's
`^[A-Za-z0-9]+$` operation-name shape. -/
def isAlnum (c : Char) : Bool := c.isAlpha || c.isDigit

/-- A string consisting only of ASCII letters and digits. -/
def alnumChars (s : Str) : Prop := ∀ c ∈ s, isAlnum c = true

/-- RE2 whitespace class matched by the regex fragment `\s`. -/
def isWS (c : Char) : Bool :=
  c = ' ' || c = '\t' || c = '\n' || c = '\x0c' || c = '\r'

/-- Go `strings.Split(s, sep)` for a one-character separator. -/
def splitOnChar (sep : Char) : Str → List Str
  | [] => [[]]
  | c :: cs =>
    match splitOnChar sep cs with
    | [] => [[c]]
    | h :: t => if c = sep then [] :: h :: t else (c :: h) :: t

/-- `extractOperationName` (operations.go): the operation name is the part
after the `#` of a `namespace#Name` target reference; any target that does
not split into exactly two parts yields the empty name. -/
def extractOperationName (target : Str) : Str :=
  match splitOnChar '#' target with
  | [_, second] => second
  | _ => []

/-- The `Operation` struct (types file): name, type, file, line. -/
structure Operation where
  name : Str
  type : Str
  file : Str
  line : Int
deriving DecidableEq

/-- The `"control_plane"` type marker. -/
def controlPlaneType : Str := "control_plane".toList

/-- The `"data_plane"` type marker. -/
def dataPlaneType : Str := "data_plane".toList

/-- The `"Unknown"` type marker used when classification fails. -/
def unknownType : Str := "Unknown".toList

/-- An operation's source location is present when its file is non-empty and
its line is positive (the condition tested throughout the Go source). -/
def hasSourceLocation (op : Operation) : Bool :=
  decide (op.file ≠ [] ∧ 0 < op.line)

/-- The `ServiceOperations` result struct. -/
structure ServiceOperations where
  serviceName : Str
  totalOperations : Nat
  supportedOperations : Nat
  controlPlaneOps : Nat
  supportedControlPlaneOps : Nat
  operations : List Operation
deriving DecidableEq

/-- The `ClassificationResult` struct: two lists of operation names. -/
structure ClassificationResult where
  controlPlane : List Str
  dataPlane : List Str
deriving DecidableEq

/-! ### Source scanner patterns (extract.go)

`findOperationInController` compiles three regexes from the operation name
(which contains no regex metacharacters, being alphanumeric):

  - RecordAPICall pattern:  RecordAPICall\([^,]+,\s*"OP"
  - rm.sdkapi pattern:      rm\.sdkapi\.OP\(
  - client pattern:         client\.OP\(

and reports a line as a hit when any of them matches anywhere in the line.
The second and third are literal strings, so matching is substring
containment; the first is translated fragment by fragment below. -/

/-- Whether the first list is an initial segment of the second. -/
def startsWithList : Str → Str → Bool
  | [], _ => true
  | _ :: _, [] => false
  | a :: as, b :: bs => a = b && startsWithList as bs

/-- Unanchored regex search: try the predicate at every start position. -/
def searchPat (p : Str → Bool) : Str → Bool
  | [] => p []
  | c :: cs => p (c :: cs) || searchPat p cs

/-- The literal head `RecordAPICall(` of the first pattern. -/
def recordAPICallLit : Str := "RecordAPICall(".toList

/-- Regex fragment `\s*"OP"` matched against the start of `cs`. -/
def matchWSQuoted (op : Str) (cs : Str) : Bool :=
  startsWithList ('"' :: op ++ ['"']) (cs.dropWhile isWS)

/-- Regex fragment `[^,]+,\s*"OP"` matched against the start of `cs`:
one or more non-comma characters, the first comma, then `\s*"OP"`. -/
def matchArgsThenQuoted (op : Str) (cs : Str) : Bool :=
  match cs.dropWhile (fun c => !(c = ',' : Bool)) with
  | ',' :: rest =>
    decide (cs.takeWhile (fun c => !(c = ',' : Bool)) ≠ []) && matchWSQuoted op rest
  | _ => false

/-- The full RecordAPICall pattern matched at the start of `cs`. -/
def matchRecordAPICallAt (op : Str) (cs : Str) : Bool :=
  startsWithList recordAPICallLit cs &&
    matchArgsThenQuoted op (cs.drop recordAPICallLit.length)

/-- Whether the RecordAPICall pattern matches anywhere in the line. -/
def recordAPICallPatternHits (op line : Str) : Bool :=
  searchPat (matchRecordAPICallAt op) line

/-- The literal string denoted by the regex `rm\.sdkapi\.OP\(`. -/
def sdkapiCallLit (op : Str) : Str := "rm.sdkapi.".toList ++ op ++ ['(']

/-- The literal string denoted by the regex `client\.OP\(`. -/
def clientCallLit (op : Str) : Str := "client.".toList ++ op ++ ['(']

/-- Whether the rm.sdkapi pattern matches anywhere in the line. -/
def sdkapiPatternHits (op line : Str) : Bool :=
  searchPat (startsWithList (sdkapiCallLit op)) line

/-- Whether the client pattern matches anywhere in the line. -/
def clientPatternHits (op line : Str) : Bool :=
  searchPat (startsWithList (clientCallLit op)) line

/-- A canonical source line that records operation `op` through the metrics
recorder, used to state the no-false-positive property of the first pattern:
`RecordAPICall(ctx, "op")`. -/
def recordCallLineFor (op : Str) : Str :=
  recordAPICallLit ++ "ctx".toList ++ ',' :: ' ' :: '"' :: op ++ '"' :: [')']

/-! ### Classification (classify file) -/

/-- `maxOperationsPerBatch` constant. -/
def maxOperationsPerBatch : Nat := 100

/-- The batch loop of `classifyInBatches`: slice off up to
`maxOperationsPerBatch` names, hand them to the oracle (which stands for
`buildClassificationInput` + `invokeInlineAgent` + `parseClassificationResponse`),
abort on the first failing batch, and concatenate batch results in order. -/
def classifyInBatchesAux (oracle : List Str → Except Str ClassificationResult) :
    List Str → ClassificationResult → Except Str ClassificationResult
  | [], acc => .ok acc
  | n :: rest, acc =>
    match oracle ((n :: rest).take maxOperationsPerBatch) with
    | .error e => .error e
    | .ok r =>
      classifyInBatchesAux oracle ((n :: rest).drop maxOperationsPerBatch)
        ⟨acc.controlPlane ++ r.controlPlane, acc.dataPlane ++ r.dataPlane⟩
termination_by l _ => l.length
decreasing_by
  simp only [List.length_drop, List.length_cons, maxOperationsPerBatch]
  omega

/-- `classifyInBatches`: run all batches starting from empty accumulators. -/
def classifyInBatches (oracle : List Str → Except Str ClassificationResult)
    (operationNames : List Str) : Except Str ClassificationResult :=
  classifyInBatchesAux oracle operationNames ⟨[], []⟩

/-- `ClassifyOperations`: an empty operation list succeeds immediately with
two empty sets; otherwise the operation names are collected and classified
in batches through the external oracle. -/
def ClassifyOperations (oracle : List Str → Except Str ClassificationResult)
    (operations : List Operation) : Except Str ClassificationResult :=
  if operations = [] then .ok ⟨[], []⟩
  else classifyInBatches oracle (operations.map Operation.name)

/-- `ApplyClassification`: set each operation's type by membership in the
control-plane list, else the data-plane list, else default to data-plane. -/
def ApplyClassification (operations : List Operation)
    (classification : ClassificationResult) : List Operation :=
  operations.map fun op =>
    if op.name ∈ classification.controlPlane then { op with type := controlPlaneType }
    else if op.name ∈ classification.dataPlane then { op with type := dataPlaneType }
    else { op with type := dataPlaneType }

/-- `CountControlPlaneOperations`: scan the list, counting operations of type
control_plane and, of those, the ones with a source location. -/
def CountControlPlaneOperations (operations : List Operation) : Nat × Nat :=
  operations.foldl
    (fun acc op =>
      if op.type = controlPlaneType then
        (acc.1 + 1, if op.file ≠ [] ∧ 0 < op.line then acc.2 + 1 else acc.2)
      else acc)
    (0, 0)

/-! ### Operation aggregation (operations.go) -/

/-- The mutable state threaded through `ExtractDetailedOperationsFromService`:
the seen-name set `operationNames`, the supported `operations`, the
`unsupportedOperations` bucket, and `supportedCount`. -/
structure ExtractState where
  operationNames : List Str
  operations : List Operation
  unsupportedOperations : List Operation
  supportedCount : Nat
deriving DecidableEq

/-- The initial extraction state. -/
def initialExtractState : ExtractState := ⟨[], [], [], 0⟩

/-- `processOperation`: skip empty and already-seen names; look the name up in
the controller source; a hit becomes a control_plane operation in the main
list (counted as supported), a miss goes to the unsupported bucket. -/
def processOperation (findOp : Str → Str × Int) (operationName : Str)
    (s : ExtractState) : ExtractState :=
  if operationName ≠ [] ∧ operationName ∉ s.operationNames then
    if (findOp operationName).1 ≠ [] ∧ 0 < (findOp operationName).2 then
      { s with operationNames := operationName :: s.operationNames,
               operations := s.operations ++
                 [⟨operationName, controlPlaneType,
                   (findOp operationName).1, (findOp operationName).2⟩],
               supportedCount := s.supportedCount + 1 }
    else
      { s with operationNames := operationName :: s.operationNames,
               unsupportedOperations := s.unsupportedOperations ++
                 [⟨operationName, [], (findOp operationName).1, (findOp operationName).2⟩] }
  else s

/-- The two collection loops of `ExtractDetailedOperationsFromService`: first
the operation target references of the model's service shape, then the names
of shapes whose type is "operation" (both in the order the Go iteration
yields them, which the embedding takes as a parameter). -/
def runModelNames (findOp : Str → Str × Int)
    (serviceShapeTargets operationShapeNames : List Str) : ExtractState :=
  let s1 := serviceShapeTargets.foldl
    (fun s t => processOperation findOp (extractOperationName t) s) initialExtractState
  operationShapeNames.foldl
    (fun s n => processOperation findOp (extractOperationName n) s) s1

/-- The warning printed when classification fails for a service. -/
def classifyWarning (e : Str) : Str :=
  "Warning: Failed to classify operations: ".toList ++ e

/-- The classification step of `ExtractDetailedOperationsFromService`:
returns the final operation list together with the warnings printed.
On classifier failure every pending operation is appended with type Unknown;
on success the classified pending operations are appended; with
classification disabled the pending operations are appended unchanged. -/
def finalOperations (enableClassification : Bool)
    (oracle : List Str → Except Str ClassificationResult)
    (s : ExtractState) : List Operation × List Str :=
  if enableClassification = true ∧ s.unsupportedOperations ≠ [] then
    match ClassifyOperations oracle s.unsupportedOperations with
    | .error e =>
      (s.operations ++ s.unsupportedOperations.map (fun op => { op with type := unknownType }),
       [classifyWarning e])
    | .ok classification =>
      (s.operations ++ ApplyClassification s.unsupportedOperations classification, [])
  else if s.unsupportedOperations ≠ [] then
    (s.operations ++ s.unsupportedOperations, [])
  else
    (s.operations, [])

/-- The error produced when no operations were found. -/
def noOperationsFoundErr : Str := "no operations found".toList

/-- `ExtractDetailedOperationsFromService`, with the model contents, the
controller scanner and the classification oracle as parameters.  Returns the
Go function's result together with the warnings it printed. -/
def ExtractDetailedOperationsFromService (serviceName : Str)
    (serviceShapeTargets operationShapeNames : List Str)
    (findOp : Str → Str × Int) (enableClassification : Bool)
    (oracle : List Str → Except Str ClassificationResult) :
    Except Str ServiceOperations × List Str :=
  let s2 := runModelNames findOp serviceShapeTargets operationShapeNames
  let res := finalOperations enableClassification oracle s2
  if res.1 = [] then (.error noOperationsFoundErr, res.2)
  else
    (.ok ⟨serviceName, res.1.length, s2.supportedCount,
          (CountControlPlaneOperations res.1).1,
          (CountControlPlaneOperations res.1).2, res.1⟩,
     res.2)

/-! ### Policy synthesis (policy_generator.go) -/

/-- A policy statement (the `Resource` interface value is always a string
here, and `Condition` is never set by the generator). -/
structure PolicyStatement where
  effect : Str
  action : List Str
  resource : Str
deriving DecidableEq

/-- An IAM policy document. -/
structure IAMPolicy where
  version : Str
  statement : List PolicyStatement
deriving DecidableEq

/-- The fixed policy version string. -/
def policyVersion : Str := "2012-10-17".toList

/-- The `Allow` effect. -/
def allowEffect : Str := "Allow".toList

/-- Lower-casing of a string, as `strings.ToLower` acts on the ASCII service
identifiers used here. -/
def toLowerStr (s : Str) : Str := s.map Char.toLower

/-- `mapOperationToIAMAction`: the resolved model name (or the service name
when `generator.yaml` resolution failed), lower-cased, joined to the
operation name by a colon. -/
def mapOperationToIAMAction (modelName : Option Str) (serviceName opName : Str) : Str :=
  toLowerStr (modelName.getD serviceName) ++ ':' :: opName

/-- `generateSimpleResourcePattern`: fixed per-service overrides for s3 and
iam, generic wildcard ARN otherwise. -/
def generateSimpleResourcePattern (modelName : Option Str) (serviceName : Str) : Str :=
  let serviceForARN := toLowerStr (modelName.getD serviceName)
  if serviceForARN = "s3".toList then "*".toList
  else if serviceForARN = "iam".toList then "arn:aws:iam::*:*".toList
  else "arn:aws:".toList ++ serviceForARN ++ ":*:*:*".toList

/-- The action-collection loop of `GenerateSinglePolicy`: one action per
operation with a source location, in the operations' own order. -/
def collectSupportedActions (modelName : Option Str) (serviceName : Str) :
    List Operation → List Str
  | [] => []
  | op :: rest =>
    if op.file ≠ [] ∧ 0 < op.line then
      mapOperationToIAMAction modelName serviceName op.name ::
        collectSupportedActions modelName serviceName rest
    else collectSupportedActions modelName serviceName rest

/-- `createPolicy`: empty action list gives a statement-less policy;
otherwise exactly one Allow statement with the full action list. -/
def createPolicy (actions : List Str) (resource : Str) : IAMPolicy :=
  if actions = [] then ⟨policyVersion, []⟩
  else ⟨policyVersion, [⟨allowEffect, actions, resource⟩]⟩

/-- The error produced when no supported operations exist. -/
def noSupportedOperationsErr : Str := "no supported operations found".toList

/-- `GenerateSinglePolicy`: collect one action per supported operation, fail
when there are none, otherwise build the single-statement policy. -/
def GenerateSinglePolicy (modelName : Option Str) (serviceName : Str)
    (operations : List Operation) : Except Str IAMPolicy :=
  let supportedActions := collectSupportedActions modelName serviceName operations
  if supportedActions = [] then .error noSupportedOperationsErr
  else .ok (createPolicy supportedActions
    (generateSimpleResourcePattern modelName serviceName))

/-! ### Lemmas about splitting on a separator -/

lemma splitOnChar_ne_nil (sep : Char) (l : Str) : splitOnChar sep l ≠ [] := by
  induction l with
  | nil => simp [splitOnChar]
  | cons c cs ih =>
    rw [splitOnChar]
    cases h : splitOnChar sep cs with
    | nil => simp
    | cons a t => by_cases hc : c = sep <;> simp [hc]

lemma splitOnChar_of_not_mem (sep : Char) (l : Str) (h : sep ∉ l) :
    splitOnChar sep l = [l] := by
  induction l with
  | nil => rfl
  | cons c cs ih =>
    have hc : ¬(c = sep) := fun he => h (he ▸ List.mem_cons_self c cs)
    have hcs : sep ∉ cs := fun hm => h (List.mem_cons_of_mem _ hm)
    rw [splitOnChar, ih hcs]
    simp [hc]

lemma splitOnChar_append_sep (sep : Char) (ns nm : Str) (h : sep ∉ ns) :
    splitOnChar sep (ns ++ sep :: nm) = ns :: splitOnChar sep nm := by
  induction ns with
  | nil =>
    rw [List.nil_append, splitOnChar]
    cases hnm : splitOnChar sep nm with
    | nil => exact absurd hnm (splitOnChar_ne_nil sep nm)
    | cons a t => simp
  | cons c cs ih =>
    have hc : ¬(c = sep) := fun he => h (he ▸ List.mem_cons_self c cs)
    have hcs : sep ∉ cs := fun hm => h (List.mem_cons_of_mem _ hm)
    rw [List.cons_append, splitOnChar, ih hcs]
    simp [hc]

lemma splitOnChar_length (sep : Char) (l : Str) :
    (splitOnChar sep l).length = l.count sep + 1 := by
  induction l with
  | nil => simp [splitOnChar]
  | cons c cs ih =>
    rw [splitOnChar]
    cases h : splitOnChar sep cs with
    | nil => exact absurd h (splitOnChar_ne_nil sep cs)
    | cons a t =>
      rw [h] at ih
      by_cases hc : c = sep
      · simp only [if_pos hc, List.length_cons, List.count_cons, hc]
        simp at ih ⊢
        omega
      · simp only [if_neg hc, List.length_cons, List.count_cons]
        simp [hc] at ih ⊢
        omega

lemma not_mem_of_alnumChars {s : Str} (h : alnumChars s) {c : Char}
    (hc : isAlnum c = false) : c ∉ s :=
  fun hm => by rw [h c hm] at hc; cases hc

instance alnumCharsDecidable (s : Str) : Decidable (alnumChars s) :=
  inferInstanceAs (Decidable (∀ c ∈ s, isAlnum c = true))

/-- C3.  For every valid `namespace#Name` target reference (namespace free of
`#`, name non-empty alphanumeric) the extracted operation name is exactly the
portion after the single `#`, and it is alphanumeric; a reference whose `#`
count differs from one yields the empty name, which `processOperation`
excludes (it leaves the extraction state unchanged). -/
theorem extractOperationName_valid_shape :
    (∀ ns nm : Str, '#' ∉ ns → nm ≠ [] → alnumChars nm →
      extractOperationName (ns ++ '#' :: nm) = nm ∧
        alnumChars (extractOperationName (ns ++ '#' :: nm))) ∧
    (∀ target : Str, target.count '#' ≠ 1 →
      extractOperationName target = [] ∧
        ∀ (findOp : Str → Str × Int) (s : ExtractState),
          processOperation findOp (extractOperationName target) s = s) := by
  constructor
  · intro ns nm hns _hne halnum
    have hnm : '#' ∉ nm := not_mem_of_alnumChars halnum (by decide)
    have hsplit : splitOnChar '#' (ns ++ '#' :: nm) = [ns, nm] := by
      rw [splitOnChar_append_sep _ _ _ hns, splitOnChar_of_not_mem _ _ hnm]
    have hname : extractOperationName (ns ++ '#' :: nm) = nm := by
      rw [extractOperationName, hsplit]
    refine ⟨hname, ?_⟩
    rw [hname]
    exact halnum
  · intro target hcount
    have hlen : (splitOnChar '#' target).length ≠ 2 := by
      rw [splitOnChar_length]; omega
    have hname : extractOperationName target = [] := by
      rw [extractOperationName]
      cases h : splitOnChar '#' target with
      | nil => rfl
      | cons a t =>
        cases t with
        | nil => rfl
        | cons b t2 =>
          cases t2 with
          | nil => rw [h] at hlen; simp at hlen
          | cons d t3 => rfl
    refine ⟨hname, fun findOp s => ?_⟩
    rw [hname, processOperation]
    simp

/-- Witness for C3 at a concrete valid reference and a concrete malformed
reference. -/
theorem extractOperationName_valid_shape_witness :
    extractOperationName ("com.amazonaws.acm".toList ++ '#' :: "DeleteCertificate".toList) =
        "DeleteCertificate".toList ∧
    extractOperationName ("a#b#c".toList) = [] :=
  ⟨(extractOperationName_valid_shape.1 ("com.amazonaws.acm".toList)
      ("DeleteCertificate".toList) (by decide) (by decide) (by decide)).1,
   (extractOperationName_valid_shape.2 ("a#b#c".toList) (by decide)).1⟩

/-! ### Classification application (C5, C8, C9) -/

/-- C5.  Applying a classification assigns data_plane to every operation whose
name appears in neither name set: the fail-open default of the apply step. -/
theorem applyClassification_default_data_plane
    (operations : List Operation) (classification : ClassificationResult)
    (i : Nat) (op : Operation) (hop : operations[i]? = some op)
    (hcp : op.name ∉ classification.controlPlane)
    (_hdp : op.name ∉ classification.dataPlane) :
    (ApplyClassification operations classification)[i]? =
      some { op with type := dataPlaneType } := by
  simp [ApplyClassification, hop, hcp]

/-- Witness for C5 at a one-element list whose name is in neither set. -/
theorem applyClassification_default_data_plane_witness :
    (ApplyClassification [⟨"Zap".toList, [], [], 0⟩]
        ⟨[("CreateRole".toList)], [("GetUser".toList)]⟩)[0]? =
      some ⟨"Zap".toList, dataPlaneType, [], 0⟩ :=
  applyClassification_default_data_plane _ _ 0 _ rfl (by decide) (by decide)

/-- C8.  The control-plane membership test is applied first, so a name listed
in both sets is assigned control_plane. -/
theorem applyClassification_control_plane_precedence
    (operations : List Operation) (classification : ClassificationResult)
    (i : Nat) (op : Operation) (hop : operations[i]? = some op)
    (hcp : op.name ∈ classification.controlPlane)
    (_hdp : op.name ∈ classification.dataPlane) :
    (ApplyClassification operations classification)[i]? =
      some { op with type := controlPlaneType } := by
  simp [ApplyClassification, hop, hcp]

/-- Witness for C8 at a one-element list whose name is in both sets. -/
theorem applyClassification_control_plane_precedence_witness :
    (ApplyClassification [⟨"PutItem".toList, [], [], 0⟩]
        ⟨[("PutItem".toList)], [("PutItem".toList)]⟩)[0]? =
      some ⟨"PutItem".toList, controlPlaneType, [], 0⟩ :=
  applyClassification_control_plane_precedence _ _ 0 _ rfl (by decide) (by decide)

/-- C9.  Applying a classification preserves the list's length and order and
touches only each operation's type: names, files and lines are unchanged. -/
theorem applyClassification_frame
    (operations : List Operation) (classification : ClassificationResult) :
    (ApplyClassification operations classification).length = operations.length ∧
    (ApplyClassification operations classification).map
        (fun op => (op.name, op.file, op.line)) =
      operations.map (fun op => (op.name, op.file, op.line)) := by
  constructor
  · simp [ApplyClassification]
  · simp only [ApplyClassification, List.map_map]
    congr 1
    funext op
    by_cases h1 : op.name ∈ classification.controlPlane <;>
      by_cases h2 : op.name ∈ classification.dataPlane <;>
        simp [h1, h2]

/-- C10.  Classifying an empty operation list succeeds with two empty sets for
every oracle whatsoever, so no batch is built and the oracle is never
consulted. -/
theorem classifyOperations_empty_skips_oracle :
    ∀ oracle : List Str → Except Str ClassificationResult,
      ClassifyOperations oracle [] = .ok ⟨[], []⟩ :=
  fun _ => rfl

/-! ### Policy synthesis (C7) -/

lemma collectSupportedActions_eq (modelName : Option Str) (serviceName : Str)
    (operations : List Operation) :
    collectSupportedActions modelName serviceName operations =
      (operations.filter hasSourceLocation).map
        (fun op => mapOperationToIAMAction modelName serviceName op.name) := by
  induction operations with
  | nil => rfl
  | cons op rest ih =>
    by_cases h : op.file ≠ [] ∧ 0 < op.line <;>
      simp [collectSupportedActions, List.filter_cons, hasSourceLocation, h, ih]

/-- C7.  Policy synthesis fails with the no-supported-operations error when no
operation has a source location; otherwise it produces exactly one Allow
statement whose action list has one action per located operation, in the
operations' own order, each action being the lower-cased resolved model name
(or the service identifier when resolution failed) joined to the operation
name by a colon. -/
theorem generateSinglePolicy_shape (modelName : Option Str) (serviceName : Str)
    (operations : List Operation) :
    (operations.filter hasSourceLocation = [] →
      GenerateSinglePolicy modelName serviceName operations =
        .error noSupportedOperationsErr) ∧
    (operations.filter hasSourceLocation ≠ [] →
      GenerateSinglePolicy modelName serviceName operations =
        .ok ⟨policyVersion,
             [⟨allowEffect,
               (operations.filter hasSourceLocation).map
                 (fun op => toLowerStr (modelName.getD serviceName) ++ ':' :: op.name),
               generateSimpleResourcePattern modelName serviceName⟩]⟩) := by
  have hacts := collectSupportedActions_eq modelName serviceName operations
  constructor
  · intro hempty
    rw [GenerateSinglePolicy, hacts, hempty]
    simp
  · intro hne
    have hne' : (operations.filter hasSourceLocation).map
        (fun op => mapOperationToIAMAction modelName serviceName op.name) ≠ [] := by
      simpa using hne
    rw [GenerateSinglePolicy, hacts, if_neg hne', createPolicy, if_neg hne']
    rfl

/-- Witness for C7: one supported and one unsupported operation yield a
single-statement Allow policy over the supported one. -/
theorem generateSinglePolicy_shape_witness :
    GenerateSinglePolicy none ("acm".toList)
        [⟨"DeleteCertificate".toList, controlPlaneType, "pkg/a.go".toList, 7⟩,
         ⟨"ExportCertificate".toList, [], [], 0⟩] =
      .ok ⟨policyVersion,
           [⟨allowEffect,
             (([⟨"DeleteCertificate".toList, controlPlaneType, "pkg/a.go".toList, 7⟩,
                ⟨"ExportCertificate".toList, [], [], 0⟩] : List Operation).filter
                  hasSourceLocation).map
               (fun op => toLowerStr ((none : Option Str).getD ("acm".toList)) ++ ':' :: op.name),
             generateSimpleResourcePattern none ("acm".toList)⟩]⟩ :=
  (generateSinglePolicy_shape none ("acm".toList)
      [⟨"DeleteCertificate".toList, controlPlaneType, "pkg/a.go".toList, 7⟩,
       ⟨"ExportCertificate".toList, [], [], 0⟩]).2 (by decide)

/-! ### The extraction-state invariant (C1, C4, C6) -/

/-- Invariant maintained by the collection loops: supported operations carry
their scanner hit and the control_plane tag, unsupported ones carry the
scanner miss, the supported counter equals the supported list's length, names
are duplicate-free across both buckets, and the seen-set holds exactly the
collected names. -/
def StateInv (findOp : Str → Str × Int) (s : ExtractState) : Prop :=
  (∀ op ∈ s.operations, op.name ≠ [] ∧ op.type = controlPlaneType ∧
      op.file = (findOp op.name).1 ∧ op.line = (findOp op.name).2 ∧
      op.file ≠ [] ∧ 0 < op.line) ∧
  (∀ op ∈ s.unsupportedOperations, op.name ≠ [] ∧
      op.file = (findOp op.name).1 ∧ op.line = (findOp op.name).2 ∧
      ¬(op.file ≠ [] ∧ 0 < op.line)) ∧
  s.supportedCount = s.operations.length ∧
  ((s.operations ++ s.unsupportedOperations).map Operation.name).Nodup ∧
  (∀ n : Str, n ∈ s.operationNames ↔
      n ∈ (s.operations ++ s.unsupportedOperations).map Operation.name)

lemma stateInv_initial (findOp : Str → Str × Int) :
    StateInv findOp initialExtractState := by
  refine ⟨?_, ?_, rfl, ?_, ?_⟩ <;> simp [initialExtractState]

lemma stateInv_processOperation (findOp : Str → Str × Int) (n : Str)
    (s : ExtractState) (h : StateInv findOp s) :
    StateInv findOp (processOperation findOp n s) := by
  obtain ⟨h1, h2, h3, h4, h5⟩ := h
  rw [processOperation]
  by_cases hc : n ≠ [] ∧ n ∉ s.operationNames
  · rw [if_pos hc]
    have hnotmem : n ∉ (s.operations ++ s.unsupportedOperations).map Operation.name :=
      fun hm => hc.2 ((h5 n).mpr hm)
    by_cases hfl : (findOp n).1 ≠ [] ∧ 0 < (findOp n).2
    · rw [if_pos hfl]
      unfold StateInv
      dsimp only
      refine ⟨?_, h2, ?_, ?_, ?_⟩
      · intro op hop
        rcases List.mem_append.mp hop with hin | hnew
        · exact h1 op hin
        · rcases List.mem_singleton.mp hnew with rfl
          exact ⟨hc.1, rfl, rfl, rfl, hfl.1, hfl.2⟩
      · simp [h3]
      · have hperm : List.Perm
            (((s.operations ++
              [(⟨n, controlPlaneType, (findOp n).1, (findOp n).2⟩ : Operation)]) ++
                s.unsupportedOperations).map Operation.name)
            (n :: (s.operations ++ s.unsupportedOperations).map Operation.name) := by
          simp only [List.map_append, List.map_cons, List.map_nil, List.append_assoc,
            List.singleton_append]
          exact @List.perm_middle Str n (s.operations.map Operation.name)
            (s.unsupportedOperations.map Operation.name)
        rw [hperm.nodup_iff, List.nodup_cons]
        exact ⟨hnotmem, h4⟩
      · intro n0
        simp only [List.mem_cons, List.map_append, List.mem_append, List.map_cons,
          List.map_nil, List.mem_singleton] at *
        rw [h5 n0]
        tauto
    · rw [if_neg hfl]
      unfold StateInv
      dsimp only
      refine ⟨h1, ?_, h3, ?_, ?_⟩
      · intro op hop
        rcases List.mem_append.mp hop with hin | hnew
        · exact h2 op hin
        · rcases List.mem_singleton.mp hnew with rfl
          exact ⟨hc.1, rfl, rfl, hfl⟩
      · have hperm : List.Perm
            ((s.operations ++
              (s.unsupportedOperations ++
                [(⟨n, [], (findOp n).1, (findOp n).2⟩ : Operation)])).map Operation.name)
            (n :: (s.operations ++ s.unsupportedOperations).map Operation.name) := by
          simp only [List.map_append, List.map_cons, List.map_nil, ← List.append_assoc]
          exact List.perm_append_singleton _ _
        rw [hperm.nodup_iff, List.nodup_cons]
        exact ⟨hnotmem, h4⟩
      · intro n0
        simp only [List.mem_cons]
        rw [h5 n0]
        simp only [List.map_append, List.mem_append, List.map_cons, List.map_nil,
          List.mem_singleton]
        tauto
  · rw [if_neg hc]
    exact ⟨h1, h2, h3, h4, h5⟩

lemma stateInv_foldl (findOp : Str → Str × Int) (g : Str → Str)
    (ts : List Str) (s : ExtractState) (h : StateInv findOp s) :
    StateInv findOp
      (ts.foldl (fun s t => processOperation findOp (g t) s) s) := by
  induction ts generalizing s with
  | nil => exact h
  | cons t ts ih => exact ih _ (stateInv_processOperation _ _ _ h)

lemma stateInv_runModelNames (findOp : Str → Str × Int)
    (targets shapeNames : List Str) :
    StateInv findOp (runModelNames findOp targets shapeNames) :=
  stateInv_foldl _ _ _ _ (stateInv_foldl _ _ _ _ (stateInv_initial _))

lemma mem_seen_processOperation (findOp : Str → Str × Int) (n0 n : Str)
    (s : ExtractState) :
    n0 ∈ (processOperation findOp n s).operationNames ↔
      n0 ∈ s.operationNames ∨ (n0 = n ∧ n ≠ []) := by
  rw [processOperation]
  by_cases hc : n ≠ [] ∧ n ∉ s.operationNames
  · rw [if_pos hc]
    by_cases hfl : (findOp n).1 ≠ [] ∧ 0 < (findOp n).2
    · rw [if_pos hfl]
      simp only [List.mem_cons]
      constructor
      · rintro (rfl | hin)
        · exact Or.inr ⟨rfl, hc.1⟩
        · exact Or.inl hin
      · rintro (hin | ⟨rfl, _⟩)
        · exact Or.inr hin
        · exact Or.inl rfl
    · rw [if_neg hfl]
      simp only [List.mem_cons]
      constructor
      · rintro (rfl | hin)
        · exact Or.inr ⟨rfl, hc.1⟩
        · exact Or.inl hin
      · rintro (hin | ⟨rfl, _⟩)
        · exact Or.inr hin
        · exact Or.inl rfl
  · rw [if_neg hc]
    constructor
    · exact Or.inl
    · rintro (hin | ⟨rfl, hne⟩)
      · exact hin
      · rcases not_and_or.mp hc with hnn | hmem
        · exact absurd hne (not_not.mp (by simpa using hnn))
        · exact not_not.mp hmem

lemma mem_seen_foldl (findOp : Str → Str × Int) (g : Str → Str)
    (ts : List Str) (s : ExtractState) (n0 : Str) :
    n0 ∈ ((ts.foldl (fun s t => processOperation findOp (g t) s) s)).operationNames ↔
      n0 ∈ s.operationNames ∨ (∃ t ∈ ts, n0 = g t ∧ g t ≠ []) := by
  induction ts generalizing s with
  | nil => simp
  | cons t ts ih =>
    rw [List.foldl_cons, ih, mem_seen_processOperation]
    simp only [List.mem_cons]
    constructor
    · rintro ((hin | ⟨rfl, hne⟩) | ⟨t2, ht2, rfl, hne⟩)
      · exact Or.inl hin
      · exact Or.inr ⟨t, Or.inl rfl, rfl, hne⟩
      · exact Or.inr ⟨t2, Or.inr ht2, rfl, hne⟩
    · rintro (hin | ⟨t2, (rfl | ht2), rfl, hne⟩)
      · exact Or.inl (Or.inl hin)
      · exact Or.inl (Or.inr ⟨rfl, hne⟩)
      · exact Or.inr ⟨t2, ht2, rfl, hne⟩

lemma mem_seen_runModelNames (findOp : Str → Str × Int)
    (targets shapeNames : List Str) (n0 : Str) :
    n0 ∈ (runModelNames findOp targets shapeNames).operationNames ↔
      (n0 ≠ [] ∧ (n0 ∈ targets.map extractOperationName ∨
                  n0 ∈ shapeNames.map extractOperationName)) := by
  rw [runModelNames, mem_seen_foldl, mem_seen_foldl]
  simp only [initialExtractState, List.not_mem_nil, false_or, List.mem_map]
  constructor
  · rintro (⟨t, ht, rfl, hne⟩ | ⟨t, ht, rfl, hne⟩)
    · exact ⟨hne, Or.inl ⟨t, ht, rfl⟩⟩
    · exact ⟨hne, Or.inr ⟨t, ht, rfl⟩⟩
  · rintro ⟨hne, ⟨t, ht, rfl⟩ | ⟨t, ht, rfl⟩⟩
    · exact Or.inl ⟨t, ht, rfl, hne⟩
    · exact Or.inr ⟨t, ht, rfl, hne⟩

/-- The classification step only retags the pending bucket: the final list is
the supported list followed by the pending list transformed element-wise by a
function that can change only the type field. -/
lemma finalOperations_decomp (b : Bool)
    (oracle : List Str → Except Str ClassificationResult) (s : ExtractState) :
    ∃ t : Operation → Operation,
      (∀ op, (t op).name = op.name ∧ (t op).file = op.file ∧ (t op).line = op.line) ∧
      (finalOperations b oracle s).1 = s.operations ++ s.unsupportedOperations.map t := by
  rw [finalOperations]
  by_cases h1 : b = true ∧ s.unsupportedOperations ≠ []
  · rw [if_pos h1]
    cases hcl : ClassifyOperations oracle s.unsupportedOperations with
    | error e =>
      exact ⟨fun op => { op with type := unknownType },
        fun op => ⟨rfl, rfl, rfl⟩, rfl⟩
    | ok classification =>
      refine ⟨fun op =>
        if op.name ∈ classification.controlPlane then { op with type := controlPlaneType }
        else if op.name ∈ classification.dataPlane then { op with type := dataPlaneType }
        else { op with type := dataPlaneType }, fun op => ?_, rfl⟩
      by_cases hc1 : op.name ∈ classification.controlPlane <;>
        by_cases hc2 : op.name ∈ classification.dataPlane <;>
          simp [hc1, hc2]
  · rw [if_neg h1]
    by_cases h2 : s.unsupportedOperations ≠ []
    · rw [if_pos h2]
      exact ⟨id, fun op => ⟨rfl, rfl, rfl⟩, by simp⟩
    · rw [if_neg h2]
      refine ⟨id, fun op => ⟨rfl, rfl, rfl⟩, ?_⟩
      rw [not_not.mp h2]
      simp

/-- Characterization of a successful extraction: the returned structure is
built from the final operation list and the fold state's supported counter. -/
lemma extract_ok_fields {serviceName : Str} {targets shapeNames : List Str}
    {findOp : Str → Str × Int} {b : Bool}
    {oracle : List Str → Except Str ClassificationResult} {so : ServiceOperations}
    (h : (ExtractDetailedOperationsFromService serviceName targets shapeNames
            findOp b oracle).1 = .ok so) :
    so.serviceName = serviceName ∧
    so.operations = (finalOperations b oracle (runModelNames findOp targets shapeNames)).1 ∧
    so.totalOperations = so.operations.length ∧
    so.supportedOperations = (runModelNames findOp targets shapeNames).supportedCount ∧
    so.controlPlaneOps = (CountControlPlaneOperations so.operations).1 ∧
    so.supportedControlPlaneOps = (CountControlPlaneOperations so.operations).2 := by
  rw [ExtractDetailedOperationsFromService] at h
  by_cases hres : (finalOperations b oracle (runModelNames findOp targets shapeNames)).1 = []
  · rw [if_pos hres] at h
    cases h
  · rw [if_neg hres] at h
    have h2 := h
    injection h2 with h3
    subst h3
    exact ⟨rfl, rfl, rfl, rfl, rfl, rfl⟩

/-- The two counters of `CountControlPlaneOperations` are the lengths of the
corresponding filters of the scanned list. -/
lemma countControlPlane_spec (operations : List Operation) :
    CountControlPlaneOperations operations =
      ((operations.filter fun op => decide (op.type = controlPlaneType)).length,
       (operations.filter fun op =>
          decide (op.type = controlPlaneType) && hasSourceLocation op).length) := by
  have key : ∀ (l : List Operation) (a b : Nat),
      l.foldl (fun acc op =>
        if op.type = controlPlaneType then
          (acc.1 + 1, if op.file ≠ [] ∧ 0 < op.line then acc.2 + 1 else acc.2)
        else acc) (a, b) =
      (a + (l.filter fun op => decide (op.type = controlPlaneType)).length,
       b + (l.filter fun op =>
          decide (op.type = controlPlaneType) && hasSourceLocation op).length) := by
    intro l
    induction l with
    | nil => simp
    | cons op rest ih =>
      intro a b
      rw [List.foldl_cons]
      by_cases hty : op.type = controlPlaneType
      · by_cases hloc : op.file ≠ [] ∧ 0 < op.line
        · simp [hty, hloc, ih, List.filter_cons, hasSourceLocation, Prod.ext_iff]
          all_goals omega
        · simp [hty, hloc, ih, List.filter_cons, hasSourceLocation, Prod.ext_iff]
          all_goals omega
      · simp [hty, ih, List.filter_cons]
  rw [CountControlPlaneOperations, key]
  simp

/-- C1.  On every successful extraction path, the returned total equals the
length of the operation list, the supported count equals the number of
operations with a source location, and the two control-plane counters equal
the counts obtained by scanning the finished list. -/
theorem extraction_counts_consistent (serviceName : Str)
    (targets shapeNames : List Str) (findOp : Str → Str × Int)
    (enableClassification : Bool)
    (oracle : List Str → Except Str ClassificationResult)
    (so : ServiceOperations)
    (h : (ExtractDetailedOperationsFromService serviceName targets shapeNames
            findOp enableClassification oracle).1 = .ok so) :
    so.totalOperations = so.operations.length ∧
    so.supportedOperations = (so.operations.filter hasSourceLocation).length ∧
    so.controlPlaneOps =
      (so.operations.filter fun op => decide (op.type = controlPlaneType)).length ∧
    so.supportedControlPlaneOps =
      (so.operations.filter fun op =>
        decide (op.type = controlPlaneType) && hasSourceLocation op).length := by
  obtain ⟨-, hops, htot, hsup, hcp, hscp⟩ := extract_ok_fields h
  obtain ⟨hInv1, hInv2, hInv3, -, -⟩ :=
    stateInv_runModelNames findOp targets shapeNames
  obtain ⟨t, ht, hdec⟩ :=
    finalOperations_decomp enableClassification oracle
      (runModelNames findOp targets shapeNames)
  refine ⟨htot, ?_, hcp.trans ?_, hscp.trans ?_⟩
  · rw [hsup, hInv3, hops, hdec, List.filter_append]
    have hfl1 : (runModelNames findOp targets shapeNames).operations.filter
        hasSourceLocation =
        (runModelNames findOp targets shapeNames).operations := by
      apply List.filter_eq_self.mpr
      intro op hop
      obtain ⟨-, -, -, -, hfile, hline⟩ := hInv1 op hop
      exact decide_eq_true ⟨hfile, hline⟩
    have hfl2 : ((runModelNames findOp targets shapeNames).unsupportedOperations.map
        t).filter hasSourceLocation = [] := by
      apply List.filter_eq_nil_iff.mpr
      intro op hop
      obtain ⟨u, hu, rfl⟩ := List.mem_map.mp hop
      obtain ⟨-, -, -, hnoloc⟩ := hInv2 u hu
      obtain ⟨-, hfile, hline⟩ := ht u
      rw [hasSourceLocation, hfile, hline]
      simpa using hnoloc
    rw [hfl1, hfl2, List.length_append, List.length_nil]
    omega
  · rw [countControlPlane_spec]
  · rw [countControlPlane_spec]

/-- Witness for C1: a concrete run (classification disabled) with one
supported and one unsupported operation. -/
theorem extraction_counts_consistent_witness :
    ∃ so : ServiceOperations,
      (ExtractDetailedOperationsFromService ("acm".toList)
          (["ns#Foo".toList, "ns#Bar".toList]) ([])
          (fun n => if n = "Foo".toList then ("pkg/a.go".toList, 3) else ([], 0))
          false (fun _ => .error ("unused".toList))).1 = .ok so ∧
      so.totalOperations = so.operations.length ∧
      so.supportedOperations = (so.operations.filter hasSourceLocation).length ∧
      so.controlPlaneOps =
        (so.operations.filter fun op => decide (op.type = controlPlaneType)).length ∧
      so.supportedControlPlaneOps =
        (so.operations.filter fun op =>
          decide (op.type = controlPlaneType) && hasSourceLocation op).length :=
  ⟨⟨"acm".toList, 2, 1, 1, 1,
    [⟨"Foo".toList, controlPlaneType, "pkg/a.go".toList, 3⟩,
     ⟨"Bar".toList, [], [], 0⟩]⟩,
   by decide,
   extraction_counts_consistent ("acm".toList)
     (["ns#Foo".toList, "ns#Bar".toList]) ([])
     (fun n => if n = "Foo".toList then ("pkg/a.go".toList, 3) else ([], 0))
     false (fun _ => .error ("unused".toList)) _ (by decide)⟩

/-- In a list with duplicate-free names, a name that occurs at all occurs in
exactly one entry. -/
lemma filter_name_length_eq_one (l : List Operation) (n : Str)
    (hnd : (l.map Operation.name).Nodup) (hmem : n ∈ l.map Operation.name) :
    (l.filter fun op => decide (op.name = n)).length = 1 := by
  induction l with
  | nil => simp at hmem
  | cons op rest ih =>
    simp only [List.map_cons, List.nodup_cons, List.mem_cons] at hnd hmem
    by_cases hn : op.name = n
    · have hrest : (rest.filter fun o => decide (o.name = n)) = [] := by
        apply List.filter_eq_nil_iff.mpr
        intro o ho
        simp only [decide_eq_true_eq]
        intro he
        exact hnd.1 (hn ▸ he ▸ List.mem_map_of_mem Operation.name ho)
      simp [List.filter_cons, hn, hrest]
    · have hmem2 : n ∈ rest.map Operation.name := by
        rcases hmem with he | hm
        · exact absurd he.symm hn
        · exact hm
      simp [List.filter_cons, hn, ih hnd.2 hmem2]

/-- C4.  After a successful extraction the operation names are duplicate-free;
any name occurring (non-empty) among the extracted names of either source has
exactly one entry in the final list; and every entry carries the scanner's
single result for its name (the scanner is consulted once, at the name's
first occurrence, so the first occurrence determines the attribution). -/
theorem extraction_deduplicates (serviceName : Str)
    (targets shapeNames : List Str) (findOp : Str → Str × Int)
    (enableClassification : Bool)
    (oracle : List Str → Except Str ClassificationResult)
    (so : ServiceOperations)
    (h : (ExtractDetailedOperationsFromService serviceName targets shapeNames
            findOp enableClassification oracle).1 = .ok so) :
    (so.operations.map Operation.name).Nodup ∧
    (∀ n : Str, n ≠ [] →
      (n ∈ targets.map extractOperationName ∨ n ∈ shapeNames.map extractOperationName) →
      (so.operations.filter fun op => decide (op.name = n)).length = 1) ∧
    (∀ op ∈ so.operations,
      op.file = (findOp op.name).1 ∧ op.line = (findOp op.name).2) := by
  obtain ⟨-, hops, -, -, -, -⟩ := extract_ok_fields h
  obtain ⟨hInv1, hInv2, -, hInv4, hInv5⟩ :=
    stateInv_runModelNames findOp targets shapeNames
  obtain ⟨t, ht, hdec⟩ :=
    finalOperations_decomp enableClassification oracle
      (runModelNames findOp targets shapeNames)
  have hnames : so.operations.map Operation.name =
      ((runModelNames findOp targets shapeNames).operations ++
        (runModelNames findOp targets shapeNames).unsupportedOperations).map
          Operation.name := by
    rw [hops, hdec, List.map_append, List.map_append, List.map_map]
    congr 1
    exact List.map_congr_left fun op _ => (ht op).1
  refine ⟨?_, ?_, ?_⟩
  · rw [hnames]; exact hInv4
  · intro n hne hsrc
    have hseen : n ∈ (runModelNames findOp targets shapeNames).operationNames :=
      (mem_seen_runModelNames findOp targets shapeNames n).mpr ⟨hne, hsrc⟩
    have hmem : n ∈ so.operations.map Operation.name := by
      rw [hnames]; exact (hInv5 n).mp hseen
    have hnd : (so.operations.map Operation.name).Nodup := by
      rw [hnames]; exact hInv4
    exact filter_name_length_eq_one _ _ hnd hmem
  · intro op hop
    rw [hops, hdec] at hop
    rcases List.mem_append.mp hop with hin | hin
    · obtain ⟨-, -, hfile, hline, -⟩ := hInv1 op hin
      exact ⟨hfile, hline⟩
    · obtain ⟨u, hu, rfl⟩ := List.mem_map.mp hin
      obtain ⟨-, hfile, hline, -⟩ := hInv2 u hu
      obtain ⟨hn, hf, hl⟩ := ht u
      rw [hn, hf, hl]
      exact ⟨hfile, hline⟩

/-- Witness for C4: the name Foo appears in both model sources yet the final
list holds exactly one entry for it. -/
theorem extraction_deduplicates_witness :
    ∃ so : ServiceOperations,
      (ExtractDetailedOperationsFromService ("acm".toList)
          (["ns#Foo".toList]) (["ns#Foo".toList])
          (fun _ => ([], 0)) false (fun _ => .error ("unused".toList))).1 = .ok so ∧
      (so.operations.filter fun op => decide (op.name = "Foo".toList)).length = 1 :=
  ⟨⟨"acm".toList, 1, 0, 0, 0, [⟨"Foo".toList, [], [], 0⟩]⟩,
   by decide,
   (extraction_deduplicates ("acm".toList) (["ns#Foo".toList]) (["ns#Foo".toList])
      (fun _ => ([], 0)) false (fun _ => .error ("unused".toList)) _
      (by decide)).2.1 ("Foo".toList) (by decide) (by decide)⟩

/-- C6.  When classification is enabled, the pending bucket is non-empty and
the classify call fails, extraction still returns a result (not an error):
every pending operation is appended with the distinct Unknown type marker and
the failure is reported through the printed warning. -/
theorem classification_failure_nonfatal (serviceName : Str)
    (targets shapeNames : List Str) (findOp : Str → Str × Int)
    (oracle : List Str → Except Str ClassificationResult) (e : Str)
    (hne : (runModelNames findOp targets shapeNames).unsupportedOperations ≠ [])
    (herr : ClassifyOperations oracle
        (runModelNames findOp targets shapeNames).unsupportedOperations = .error e) :
    ∃ so : ServiceOperations,
      (ExtractDetailedOperationsFromService serviceName targets shapeNames
          findOp true oracle).1 = .ok so ∧
      so.operations =
        (runModelNames findOp targets shapeNames).operations ++
          (runModelNames findOp targets shapeNames).unsupportedOperations.map
            (fun op => { op with type := unknownType }) ∧
      (∀ op ∈ (runModelNames findOp targets shapeNames).unsupportedOperations,
        { op with type := unknownType } ∈ so.operations) ∧
      (ExtractDetailedOperationsFromService serviceName targets shapeNames
          findOp true oracle).2 = [classifyWarning e] := by
  have hfo : finalOperations true oracle (runModelNames findOp targets shapeNames) =
      ((runModelNames findOp targets shapeNames).operations ++
        (runModelNames findOp targets shapeNames).unsupportedOperations.map
          (fun op => { op with type := unknownType }),
       [classifyWarning e]) := by
    rw [finalOperations, if_pos ⟨rfl, hne⟩, herr]
  have hne2 : (finalOperations true oracle
      (runModelNames findOp targets shapeNames)).1 ≠ [] := by
    rw [hfo]
    simp [hne]
  rw [ExtractDetailedOperationsFromService]
  rw [if_neg hne2]
  refine ⟨_, rfl, ?_, ?_, ?_⟩
  · rw [hfo]
  · intro op hop
    rw [hfo]
    exact List.mem_append_right _ (List.mem_map_of_mem _ hop)
  · rw [hfo]

/-- Witness for C6: one unsupported operation and an always-failing oracle. -/
theorem classification_failure_nonfatal_witness :
    ∃ so : ServiceOperations,
      (ExtractDetailedOperationsFromService ("acm".toList) (["ns#Bar".toList]) ([])
          (fun _ => ([], 0)) true (fun _ => .error ("boom".toList))).1 = .ok so ∧
      so.operations =
        (runModelNames (fun _ => ([], 0)) (["ns#Bar".toList]) ([])).operations ++
          (runModelNames (fun _ => ([], 0)) (["ns#Bar".toList]) ([])).unsupportedOperations.map
            (fun op => { op with type := unknownType }) ∧
      (∀ op ∈ (runModelNames (fun _ => ([], 0)) (["ns#Bar".toList]) ([])).unsupportedOperations,
        { op with type := unknownType } ∈ so.operations) ∧
      (ExtractDetailedOperationsFromService ("acm".toList) (["ns#Bar".toList]) ([])
          (fun _ => ([], 0)) true (fun _ => .error ("boom".toList))).2 =
        [classifyWarning ("boom".toList)] :=
  classification_failure_nonfatal ("acm".toList) (["ns#Bar".toList]) ([])
    (fun _ => ([], 0)) (fun _ => .error ("boom".toList)) ("boom".toList)
    (by decide)
    (by simp [ClassifyOperations, classifyInBatches, classifyInBatchesAux,
          runModelNames, processOperation, extractOperationName, splitOnChar,
          initialExtractState])

/-! ### Source-scanner pattern analysis (C2) -/

lemma startsWithList_iff (a : Str) : ∀ b : Str,
    (startsWithList a b = true ↔ ∃ u, b = a ++ u) := by
  induction a with
  | nil =>
    intro b
    constructor
    · intro _; exact ⟨b, rfl⟩
    · intro _; rfl
  | cons x xs ih =>
    intro b
    cases b with
    | nil =>
      simp only [startsWithList]
      constructor
      · intro h; cases h
      · rintro ⟨u, hu⟩; cases hu
    | cons y ys =>
      simp only [startsWithList, Bool.and_eq_true, decide_eq_true_eq, ih,
        List.cons_append, List.cons.injEq]
      constructor
      · rintro ⟨rfl, u, rfl⟩; exact ⟨u, rfl, rfl⟩
      · rintro ⟨u, rfl, rfl⟩; exact ⟨rfl, u, rfl⟩

lemma searchPat_iff (p : Str → Bool) : ∀ l : Str,
    (searchPat p l = true ↔ ∃ i, p (l.drop i) = true) := by
  intro l
  induction l with
  | nil =>
    simp only [searchPat, List.drop_nil]
    exact ⟨fun h => ⟨0, h⟩, fun ⟨_, h⟩ => h⟩
  | cons c cs ih =>
    simp only [searchPat, Bool.or_eq_true, ih]
    constructor
    · rintro (h | ⟨i, hi⟩)
      · exact ⟨0, h⟩
      · exact ⟨i + 1, hi⟩
    · rintro ⟨i, hi⟩
      cases i with
      | zero => exact Or.inl hi
      | succ i => exact Or.inr ⟨i, hi⟩

/-- A literal pattern searched over a line matches exactly when the pattern is
an interior segment of the line. -/
lemma searchLit_iff (pat line : Str) :
    searchPat (startsWithList pat) line = true ↔
      ∃ pre post, line = pre ++ pat ++ post := by
  rw [searchPat_iff]
  constructor
  · rintro ⟨i, hi⟩
    obtain ⟨u, hu⟩ := (startsWithList_iff pat _).mp hi
    refine ⟨line.take i, u, ?_⟩
    nth_rewrite 1 [← List.take_append_drop i line]
    rw [hu, List.append_assoc]
  · rintro ⟨pre, post, rfl⟩
    refine ⟨pre.length, ?_⟩
    rw [List.append_assoc, List.drop_left]
    exact (startsWithList_iff pat _).mpr ⟨post, rfl⟩

/-- Splitting a list at its first blocking element: if every element of `X`
satisfies `p` and `y` fails it, takeWhile and dropWhile cut `X ++ y :: Y`
exactly at `y`. -/
lemma blockSplit {p : Char → Bool} : ∀ (X : Str) (y : Char) (Y : Str),
    (∀ c ∈ X, p c = true) → p y = false →
    (X ++ y :: Y).takeWhile p = X ∧ (X ++ y :: Y).dropWhile p = y :: Y := by
  intro X
  induction X with
  | nil =>
    intro y Y _ hy
    simp [List.takeWhile_cons, List.dropWhile_cons, hy]
  | cons x xs ih =>
    intro y Y hall hy
    have hx : p x = true := hall x (List.mem_cons_self x xs)
    have hrec := ih y Y (fun c hc => hall c (List.mem_cons_of_mem _ hc)) hy
    constructor
    · rw [List.cons_append, List.takeWhile_cons, if_pos hx, hrec.1]
    · rw [List.cons_append, List.dropWhile_cons, if_pos hx]
      exact hrec.2

lemma alnum_not_paren {s : Str} (h : alnumChars s) : '(' ∉ s :=
  not_mem_of_alnumChars h (by decide)

lemma alnum_not_quote {s : Str} (h : alnumChars s) : '"' ∉ s :=
  not_mem_of_alnumChars h (by decide)

lemma count_paren_eq_zero {s : Str} (h : '(' ∉ s) : s.count '(' = 0 :=
  List.count_eq_zero.mpr h

lemma alnumChars_append {a b : Str} (ha : alnumChars a) (hb : alnumChars b) :
    alnumChars (a ++ b) :=
  fun c hc => (List.mem_append.mp hc).elim (ha c) (hb c)

lemma all_notParen {X : Str} (h : '(' ∉ X) :
    ∀ c ∈ X, (!(c = '(' : Bool)) = true := by
  intro c hc
  simp only [Bool.not_eq_true', decide_eq_false_iff_not]
  exact fun he => h (he ▸ hc)

/-- Key anchoring fact: a pattern of the shape `D0.N(` (the literal denoted by
the rm.sdkapi and client regexes) cannot match the call line `D0.M(` when `M`
is an alphanumeric strict extension of the alphanumeric name `N`. -/
lemma dotCall_no_extension (D0 N P S : Str) (hD : '(' ∉ D0)
    (hN : alnumChars N) (hP : alnumChars P) (hS : alnumChars S)
    (hPS : P ++ S ≠ []) :
    searchPat (startsWithList ((D0 ++ ['.']) ++ N ++ ['(']))
      ((D0 ++ ['.']) ++ (P ++ N ++ S) ++ ['(']) = false := by
  cases hmatch : searchPat (startsWithList ((D0 ++ ['.']) ++ N ++ ['(']))
      ((D0 ++ ['.']) ++ (P ++ N ++ S) ++ ['(']) with
  | false => rfl
  | true =>
    exfalso
    obtain ⟨pre, post, heq⟩ := (searchLit_iff _ _).mp hmatch
    have hM : alnumChars (P ++ N ++ S) := alnumChars_append (alnumChars_append hP hN) hS
    have hMp : '(' ∉ P ++ N ++ S := alnum_not_paren hM
    have hDp : '(' ∉ D0 ++ ['.'] := by
      intro hc
      rcases List.mem_append.mp hc with hc | hc
      · exact hD hc
      · simp at hc
    have hNp : '(' ∉ N := alnum_not_paren hN
    -- the line contains exactly one '(' character, so pre and post contain none
    have hcount := congrArg (List.count '(') heq
    simp only [List.count_append, List.count_eq_zero.mpr hMp,
      List.count_eq_zero.mpr hDp, List.count_eq_zero.mpr hNp,
      List.count_singleton] at hcount
    have hcpre : '(' ∉ pre := List.count_eq_zero.mp (by omega)
    -- cut the line at its unique '(' in both decompositions
    have hsplit1 := blockSplit ((D0 ++ ['.']) ++ (P ++ N ++ S)) '(' ([])
      (all_notParen (by
        intro hc
        rcases List.mem_append.mp hc with hc | hc
        · exact hDp hc
        · exact hMp hc))
      (by decide)
    have hsplit2 := blockSplit (pre ++ ((D0 ++ ['.']) ++ N)) '(' post
      (all_notParen (by
        intro hc
        rcases List.mem_append.mp hc with hc | hc
        · exact hcpre hc
        · rcases List.mem_append.mp hc with hc | hc
          · exact hDp hc
          · exact hNp hc))
      (by decide)
    have e2 : ((D0 ++ ['.']) ++ (P ++ N ++ S)) ++ '(' :: [] =
        (pre ++ ((D0 ++ ['.']) ++ N)) ++ '(' :: post := by
      have := heq
      simp only [List.append_assoc, List.cons_append, List.nil_append,
        List.singleton_append] at this ⊢
      exact this
    have htake : (D0 ++ ['.']) ++ (P ++ N ++ S) = pre ++ ((D0 ++ ['.']) ++ N) := by
      rw [← hsplit1.1, ← hsplit2.1, e2]
    -- lengths force pre to be non-empty
    have hlen := congrArg List.length htake
    simp only [List.length_append, List.length_cons, List.length_nil,
      List.length_singleton] at hlen
    have hPSlen : 0 < (P ++ S).length := List.length_pos.mpr hPS
    rw [List.length_append] at hPSlen
    have hprelen : pre.length = P.length + S.length := by omega
    -- the character just before the pattern's copy of N is a dot, but in the
    -- call line that position falls inside the alphanumeric M
    have h1 : ((pre ++ D0) ++ '.' :: N)[pre.length + D0.length]? = some '.' := by
      rw [List.getElem?_append_right (by simp)]
      simp
    have e3 : pre ++ ((D0 ++ ['.']) ++ N) = (pre ++ D0) ++ '.' :: N := by
      simp [List.append_assoc]
    have h2 : ((D0 ++ ['.']) ++ (P ++ N ++ S))[pre.length + D0.length]? =
        (P ++ N ++ S)[pre.length - 1]? := by
      rw [List.getElem?_append_right (by simp; omega)]
      congr 1
      simp
      omega
    have hchain : (P ++ N ++ S)[pre.length - 1]? = some '.' := by
      rw [← h2, htake, e3, h1]
    have hlt : pre.length - 1 < (P ++ N ++ S).length := by
      simp only [List.length_append]
      omega
    rw [List.getElem?_eq_getElem hlt] at hchain
    have hmem := List.getElem_mem hlt
    have halnum := hM _ hmem
    rw [Option.some.injEq] at hchain
    rw [hchain] at halnum
    exact absurd halnum (by decide)

/-- Structure forced by a RecordAPICall pattern match: the line contains the
literal head, a non-empty comma-free argument span, the first comma, optional
whitespace, and the operation name enclosed in double quotes on both sides. -/
lemma recordHits_decomp {op line : Str}
    (h : recordAPICallPatternHits op line = true) :
    ∃ pre mid sp post,
      line = pre ++ recordAPICallLit ++
        (mid ++ ',' :: (sp ++ '"' :: (op ++ '"' :: post))) ∧
      mid ≠ [] ∧ ',' ∉ mid ∧ ∀ c ∈ sp, isWS c = true := by
  rw [recordAPICallPatternHits, searchPat_iff] at h
  obtain ⟨i, hi⟩ := h
  rw [matchRecordAPICallAt, Bool.and_eq_true] at hi
  obtain ⟨h1, h2⟩ := hi
  obtain ⟨rest, hrest⟩ := (startsWithList_iff _ _).mp h1
  rw [hrest, List.drop_left] at h2
  rw [matchArgsThenQuoted] at h2
  cases hd : rest.dropWhile (fun c => !(c = ',' : Bool)) with
  | nil => rw [hd] at h2; cases h2
  | cons c cs2 =>
    rw [hd] at h2
    split at h2
    case h_2 => cases h2
    case h_1 r heqarm =>
      obtain ⟨hc, hcs⟩ := List.cons.injEq .. ▸ heqarm
      subst hc
      subst hcs
      rw [Bool.and_eq_true, decide_eq_true_eq] at h2
      obtain ⟨hmidne, hws⟩ := h2
      rw [matchWSQuoted] at hws
      obtain ⟨post, hpost⟩ := (startsWithList_iff _ _).mp hws
      have hcs2 : cs2 = cs2.takeWhile isWS ++ ('"' :: (op ++ '"' :: post)) := by
        conv_lhs => rw [← List.takeWhile_append_dropWhile isWS cs2]
        rw [hpost]
        simp [List.append_assoc]
      have hrest2 : rest = rest.takeWhile (fun c => !(c = ',' : Bool)) ++
          (',' :: (cs2.takeWhile isWS ++ ('"' :: (op ++ '"' :: post)))) := by
        conv_lhs => rw [← List.takeWhile_append_dropWhile (fun c => !(c = ',' : Bool)) rest]
        rw [hd, ← hcs2]
      have hline : line = line.take i ++ (recordAPICallLit ++ rest) := by
        conv_lhs => rw [← List.take_append_drop i line]
        rw [hrest]
      refine ⟨line.take i, rest.takeWhile (fun c => !(c = ',' : Bool)),
        cs2.takeWhile isWS, post, ?_, hmidne, ?_, ?_⟩
      · nth_rewrite 1 [hline]
        nth_rewrite 1 [hrest2]
        simp [List.append_assoc]
      · intro hmem
        have := List.mem_takeWhile_imp hmem
        simp at this
      · intro c hcmem
        exact List.mem_takeWhile_imp hcmem

lemma all_notChar {a : Char} {X : Str} (h : a ∉ X) :
    ∀ c ∈ X, (!(c = a : Bool)) = true := by
  intro c hc
  simp only [Bool.not_eq_true', decide_eq_false_iff_not]
  exact fun he => h (he ▸ hc)

/-- The RecordAPICall pattern for the alphanumeric name `N` cannot match a
line recording an alphanumeric strict extension of `N`. -/
lemma record_no_extension (N P S : Str) (hN : alnumChars N) (hP : alnumChars P)
    (hS : alnumChars S) (hPS : P ++ S ≠ []) :
    recordAPICallPatternHits N (recordCallLineFor (P ++ N ++ S)) = false := by
  cases hm : recordAPICallPatternHits N (recordCallLineFor (P ++ N ++ S)) with
  | false => rfl
  | true =>
    exfalso
    obtain ⟨pre, mid, sp, post, heq, hmidne, hmidc, hsp⟩ := recordHits_decomp hm
    have hM : alnumChars (P ++ N ++ S) := alnumChars_append (alnumChars_append hP hN) hS
    have hNp : '(' ∉ N := alnum_not_paren hN
    have hPp : '(' ∉ P := alnum_not_paren hP
    have hSp : '(' ∉ S := alnum_not_paren hS
    have hspp : '(' ∉ sp := fun hc => absurd (hsp '(' hc) (by decide)
    have hcount := congrArg (List.count '(') heq
    rw [recordCallLineFor] at hcount
    simp [List.count_append, List.count_cons, List.count_eq_zero.mpr hNp,
      List.count_eq_zero.mpr hPp, List.count_eq_zero.mpr hSp,
      List.count_eq_zero.mpr hspp, recordAPICallLit] at hcount
    have hcpre : '(' ∉ pre := List.count_eq_zero.mp (by omega)
    have hlit : recordAPICallLit = "RecordAPICall".toList ++ ['('] := by decide
    have E : "RecordAPICall".toList ++
        '(' :: ("ctx".toList ++ ',' :: ' ' :: '"' :: ((P ++ N ++ S) ++ '"' :: [')'])) =
        (pre ++ "RecordAPICall".toList) ++
          '(' :: (mid ++ ',' :: (sp ++ '"' :: (N ++ '"' :: post))) := by
      have h0 := heq
      rw [recordCallLineFor, hlit] at h0
      simp only [List.append_assoc, List.cons_append, List.singleton_append] at h0 ⊢
      exact h0
    have hs1 := blockSplit ("RecordAPICall".toList) '('
      ("ctx".toList ++ ',' :: ' ' :: '"' :: ((P ++ N ++ S) ++ '"' :: [')']))
      (all_notChar (a := '(') (by decide)) (by decide)
    have hs2 := blockSplit (pre ++ "RecordAPICall".toList) '('
      (mid ++ ',' :: (sp ++ '"' :: (N ++ '"' :: post)))
      (all_notChar (a := '(') (by
        intro hc
        rcases List.mem_append.mp hc with hc | hc
        · exact hcpre hc
        · exact (by decide : '(' ∉ "RecordAPICall".toList) hc))
      (by decide)
    have htake : "RecordAPICall".toList = pre ++ "RecordAPICall".toList := by
      have t1 := hs1.1
      rw [E, hs2.1] at t1
      exact t1.symm
    have hdrop :
        '(' :: (mid ++ ',' :: (sp ++ '"' :: (N ++ '"' :: post))) =
        '(' :: ("ctx".toList ++ ',' :: ' ' :: '"' :: ((P ++ N ++ S) ++ '"' :: [')'])) := by
      have t2 := hs1.2
      rw [E, hs2.2] at t2
      exact t2
    obtain ⟨-, htail⟩ := List.cons.injEq .. ▸ hdrop
    have hs3 := blockSplit ("ctx".toList) ','
      (' ' :: '"' :: ((P ++ N ++ S) ++ '"' :: [')']))
      (all_notChar (a := ',') (by decide)) (by decide)
    have hs4 := blockSplit mid ',' (sp ++ '"' :: (N ++ '"' :: post))
      (all_notChar (a := ',') hmidc) (by decide)
    have h34 : ',' :: (' ' :: '"' :: ((P ++ N ++ S) ++ '"' :: [')'])) =
        ',' :: (sp ++ '"' :: (N ++ '"' :: post)) := by
      have t3 := hs4.2
      rw [htail, hs3.2] at t3
      exact t3
    obtain ⟨-, htail2⟩ := List.cons.injEq .. ▸ h34
    have hs5 := @blockSplit isWS ([' ']) '"' ((P ++ N ++ S) ++ '"' :: [')'])
      (by intro c hc; rcases List.mem_singleton.mp hc with rfl; decide) (by decide)
    have hs6 := @blockSplit isWS sp '"' (N ++ '"' :: post) hsp (by decide)
    have h56 : '"' :: ((P ++ N ++ S) ++ '"' :: [')']) = '"' :: (N ++ '"' :: post) := by
      have e5 : ' ' :: '"' :: ((P ++ N ++ S) ++ '"' :: [')']) =
          [' '] ++ '"' :: ((P ++ N ++ S) ++ '"' :: [')']) := rfl
      have t4 := hs5.2
      rw [← e5, htail2, hs6.2] at t4
      exact t4.symm
    obtain ⟨-, hfin⟩ := List.cons.injEq .. ▸ h56
    have hq1 : (N ++ '"' :: post)[N.length]? = some '"' := by
      rw [List.getElem?_append_right (le_refl _)]
      simp
    have hlenM : N.length < (P ++ N ++ S).length := by
      have hl := List.length_pos.mpr hPS
      rw [List.length_append] at hl
      simp only [List.length_append]
      omega
    have hchain : ((P ++ N ++ S) ++ '"' :: [')'])[N.length]? = some '"' := by
      rw [hfin, hq1]
    rw [List.getElem?_append, if_pos hlenM, List.getElem?_eq_getElem hlenM] at hchain
    have hmem := List.getElem_mem hlenM
    have halnum := hM _ hmem
    rw [Option.some.injEq] at hchain
    rw [hchain] at halnum
    exact absurd halnum (by decide)

/-- C2.  Each scanner pattern matches only at a whole call-site token: any
line the rm.sdkapi or client pattern accepts contains the operation name
delimited by a dot before and an opening parenthesis after, and any line the
RecordAPICall pattern accepts contains the name enclosed in double quotes —
all non-identifier delimiters, so the name is never a proper substring of a
longer identifier at the match site.  Conversely, no pattern for name `N`
matches the canonical call line of an alphanumeric strict extension of `N`
(e.g. searching UpdateTable does not match BatchUpdateTable or
UpdateTableReplicaAutoScaling call sites). -/
theorem scanner_patterns_whole_token :
    (∀ op line : Str, sdkapiPatternHits op line = true →
      ∃ pre post, line = pre ++ "rm.sdkapi".toList ++ '.' :: (op ++ '(' :: post)) ∧
    (∀ op line : Str, clientPatternHits op line = true →
      ∃ pre post, line = pre ++ "client".toList ++ '.' :: (op ++ '(' :: post)) ∧
    (∀ op line : Str, recordAPICallPatternHits op line = true →
      ∃ pre mid sp post,
        line = pre ++ recordAPICallLit ++
          (mid ++ ',' :: (sp ++ '"' :: (op ++ '"' :: post))) ∧
        mid ≠ [] ∧ ',' ∉ mid ∧ ∀ c ∈ sp, isWS c = true) ∧
    (∀ N P S : Str, alnumChars N → alnumChars P → alnumChars S → P ++ S ≠ [] →
      sdkapiPatternHits N (sdkapiCallLit (P ++ N ++ S)) = false ∧
      clientPatternHits N (clientCallLit (P ++ N ++ S)) = false ∧
      recordAPICallPatternHits N (recordCallLineFor (P ++ N ++ S)) = false) := by
  have hsd : "rm.sdkapi.".toList = "rm.sdkapi".toList ++ ['.'] := by decide
  have hcl : "client.".toList = "client".toList ++ ['.'] := by decide
  refine ⟨?_, ?_, ?_, ?_⟩
  · intro op line h
    rw [sdkapiPatternHits] at h
    obtain ⟨pre, post, heq⟩ := (searchLit_iff _ _).mp h
    refine ⟨pre, post, ?_⟩
    rw [heq, sdkapiCallLit, hsd]
    simp [List.append_assoc]
  · intro op line h
    rw [clientPatternHits] at h
    obtain ⟨pre, post, heq⟩ := (searchLit_iff _ _).mp h
    refine ⟨pre, post, ?_⟩
    rw [heq, clientCallLit, hcl]
    simp [List.append_assoc]
  · intro op line h
    exact recordHits_decomp h
  · intro N P S hN hP hS hPS
    refine ⟨?_, ?_, record_no_extension N P S hN hP hS hPS⟩
    · rw [sdkapiPatternHits, sdkapiCallLit, sdkapiCallLit, hsd]
      exact dotCall_no_extension ("rm.sdkapi".toList) N P S (by decide) hN hP hS hPS
    · rw [clientPatternHits, clientCallLit, clientCallLit, hcl]
      exact dotCall_no_extension ("client".toList) N P S (by decide) hN hP hS hPS

/-- Witness for C2: the UpdateTable patterns reject a BatchUpdateTable
invocation and an UpdateTableReplicaAutoScaling recording line. -/
theorem scanner_patterns_whole_token_witness :
    sdkapiPatternHits ("UpdateTable".toList)
        (sdkapiCallLit ("Batch".toList ++ "UpdateTable".toList ++ [])) = false ∧
    recordAPICallPatternHits ("UpdateTable".toList)
        (recordCallLineFor (([]) ++ "UpdateTable".toList ++ "ReplicaAutoScaling".toList)) =
      false :=
  ⟨(scanner_patterns_whole_token.2.2.2 ("UpdateTable".toList) ("Batch".toList) ([])
      (by decide) (by decide) (by decide) (by decide)).1,
   (scanner_patterns_whole_token.2.2.2 ("UpdateTable".toList) ([]) ("ReplicaAutoScaling".toList)
      (by decide) (by decide) (by decide) (by decide)).2.2⟩

end AckApiExtractor
